import Mathlib

/-!
Verification development for the `discordongo-db` repository: a shallow
embedding in Lean 4 of the in-memory document engine (filter matching in
`src/utils/filters.ts`, update application in `src/utils/updates.ts`, the
store orchestration in `src/discord-db.ts`, and the encryption wrapper in
`src/utils/encryption.ts`), together with theorems settling the spec claims.

Modelling conventions:
* JavaScript JSON-compatible values are the inductive `JValue`
  (string, number, boolean, null, array, object).  Numbers are modelled as
  `Int` (no claim depends on float behaviour); `Date` and `RegExp` values,
  which the source only touches in branches that are dead for JSON-parsed
  documents, are not representable.
* JavaScript `undefined` is `Option.none`: field lookups return
  `Option JValue`.
* A JavaScript object is an insertion-ordered association list
  `List (String × JValue)`; property assignment updates the first matching
  key in place or appends, property deletion removes it — exactly the
  observable behaviour of plain JS objects (documents never carry duplicate
  keys).  Prototype-chain properties, string/array index access and named
  properties on arrays are outside the model: indexing a non-object yields
  `undefined`.
* The regular-expression engine (`new RegExp(...).test(...)`) is an
  external JS builtin; it is threaded through the filter engine as an
  oracle parameter `regexTest`.
-/

namespace DDB

/-- JSON-compatible JavaScript value (the payloads `JSON.parse` can produce
and the document/filter/update grammars range over). -/
inductive JValue where
  | null : JValue
  | bool : Bool → JValue
  | num : Int → JValue
  | str : String → JValue
  | arr : List JValue → JValue
  | obj : List (String × JValue) → JValue
deriving Repr

/-- A document / plain JS object: insertion-ordered field list. -/
abbrev Doc := List (String × JValue)

/-- JavaScript truthiness of a value (`Boolean(v)`). -/
def truthy : JValue → Bool
  | .null => false
  | .bool b => b
  | .num n => n != 0
  | .str s => s != ""
  | .arr _ => true
  | .obj _ => true

/-- Truthiness of a possibly-`undefined` value. -/
def truthyOpt : Option JValue → Bool
  | none => false
  | some v => truthy v

/-- Own-property read on a plain object (`fields[key]`); first match wins. -/
def lookupField : Doc → String → Option JValue
  | [], _ => none
  | (k, v) :: rest, key => if k == key then some v else lookupField rest key

/-- Property assignment `obj[key] = value` on a plain object: overwrite in
place if the key exists, append otherwise. -/
def setField : Doc → String → JValue → Doc
  | [], key, value => [(key, value)]
  | (k, v) :: rest, key, value =>
    if k == key then (key, value) :: rest else (k, v) :: setField rest key value

/-- Property deletion `delete obj[key]`. -/
def removeField : Doc → String → Doc
  | [], _ => []
  | (k, v) :: rest, key => if k == key then rest else (k, v) :: removeField rest key

/-- Character-level model of `String.prototype.split('.')`: splits into the
(possibly empty) segments between dots. -/
def splitPathChars : List Char → List (List Char)
  | [] => [[]]
  | c :: rest =>
    if c = '.' then [] :: splitPathChars rest
    else
      match splitPathChars rest with
      | seg :: segs => (c :: seg) :: segs
      | [] => [[c]]

/-- Dot-path splitting `path.split('.')` as used by both engines. -/
def splitPath (path : String) : List String :=
  (splitPathChars path.data).map (fun cs => String.mk cs)

/-- Reading `value[key]` where `value` may be any JValue: only plain objects
expose own properties in the model (string/array index access and prototype
properties are outside it). -/
def jsIndex : JValue → String → Option JValue
  | .obj fs, key => lookupField fs key
  | _, _ => none

/-- Indexed enumeration used to model `Object.entries` on arrays/strings. -/
def enumEntries (xs : List JValue) : List (String × JValue) :=
  (List.range xs.length).zip xs |>.map (fun p => (toString p.1, p.2))

/-- The pairs `Object.entries(value)` yields: own enumerable entries of an
object, index/value pairs of an array or string, nothing for primitives. -/
def jsEntries : JValue → List (String × JValue)
  | .obj fs => fs
  | .arr xs => enumEntries xs
  | .str s => enumEntries (s.data.map (fun c => JValue.str (String.mk [c])))
  | _ => []

/-- The strings `typeof value` yields. -/
def jsTypeof : JValue → String
  | .null => "object"
  | .bool _ => "boolean"
  | .num _ => "number"
  | .str _ => "string"
  | .arr _ => "object"
  | .obj _ => "object"

end DDB

namespace DDB

/-- One step of `path.split('.').reduce((current, key) => current && current[key] !== undefined ? current[key] : undefined, obj)`
from `getNestedValue` (identical in filters.ts and updates.ts). -/
def getNestedStep (current : Option JValue) (key : String) : Option JValue :=
  match current with
  | some c => if truthy c then jsIndex c key else none
  | none => none

/-- The reduce loop of `getNestedValue` over an explicit key list. -/
def getNestedKeys : Option JValue → List String → Option JValue
  | current, [] => current
  | current, key :: rest => getNestedKeys (getNestedStep current key) rest

/-- `getNestedValue(obj, path)` from filters.ts lines 128-132 and
updates.ts lines 132-136: dot-path resolution, `undefined` on any miss. -/
def getNestedValue (o : JValue) (path : String) : Option JValue :=
  getNestedKeys (some o) (splitPath path)

/-- The walk of `setNestedValue` (updates.ts lines 96-109) over an explicit
key list: descend through existing nested objects, replacing a missing or
non-object intermediate with a fresh `{}`, then assign the leaf.
(The source descends into arrays too, attaching named properties to them;
such array-valued intermediates are outside the model.) -/
def setNestedKeys (d : Doc) : List String → JValue → Doc
  | [], _ => d
  | [key], value => setField d key value
  | key :: rest, value =>
    match lookupField d key with
    | some (.obj inner) => setField d key (.obj (setNestedKeys inner rest value))
    | _ => setField d key (.obj (setNestedKeys [] rest value))

/-- `setNestedValue(obj, path, value)` on a document. -/
def setNestedValue (d : Doc) (path : String) (value : JValue) : Doc :=
  setNestedKeys d (splitPath path) value

/-- The walk of `unsetNestedValue` (updates.ts lines 114-127) over an
explicit key list: descend through existing nested objects, silently
stopping when the path is broken, then delete the leaf key. -/
def unsetNestedKeys (d : Doc) : List String → Doc
  | [] => d
  | [key] => removeField d key
  | key :: rest =>
    match lookupField d key with
    | some (.obj inner) => setField d key (.obj (unsetNestedKeys inner rest))
    | _ => d

/-- `unsetNestedValue(obj, path)` on a document. -/
def unsetNestedValue (d : Doc) (path : String) : Doc :=
  unsetNestedKeys d (splitPath path)

mutual
/-- `deepEqual` from updates.ts lines 141-159: reference/primitive equality,
elementwise array equality (after a length check), and key-based object
equality (`a`'s keys looked up in `b` after a key-count check).  The
`Date` branch is dead for JSON values.  JavaScript's generic object branch
also compares an array against an index-keyed plain object; such mixed
array/object comparisons are outside the model (they return `false` here)
and are not exercised by any claim. -/
def deepEqual : JValue → JValue → Bool
  | .null, .null => true
  | .bool a, .bool b => a == b
  | .num a, .num b => a == b
  | .str a, .str b => a == b
  | .arr a, .arr b => a.length == b.length && deepEqualList a b
  | .obj a, .obj b => a.length == b.length && deepEqualFields a b
  | _, _ => false

/-- Elementwise `a.every((item, index) => deepEqual(item, b[index]))`. -/
def deepEqualList : List JValue → List JValue → Bool
  | [], _ => true
  | _ :: _, [] => true
  | x :: xs, y :: ys => deepEqual x y && deepEqualList xs ys

/-- Keywise `aKeys.every(key => deepEqual(a[key], b[key]))`; a key missing
from `b` compares unequal. -/
def deepEqualFields : List (String × JValue) → Doc → Bool
  | [], _ => true
  | (k, v) :: rest, b =>
    (match lookupField b k with
     | some w => deepEqual v w
     | none => false) && deepEqualFields rest b
end

/-- `deepEqual` of a scalar (non-array, non-object) value with itself is
`true`, mirroring JavaScript `===` on primitives. -/
def isScalar : JValue → Bool
  | .null => true
  | .bool _ => true
  | .num _ => true
  | .str _ => true
  | _ => false

mutual
/-- JavaScript `String(value)` for JSON values: `Array.prototype.toString`
joins the elements with commas (`null` printing as the empty string inside
an array) and plain objects print as `[object Object]`. -/
def jsToString : JValue → String
  | .null => "null"
  | .bool b => cond b "true" "false"
  | .num n => toString n
  | .str s => s
  | .arr xs => jsToStringList xs
  | .obj _ => "[object Object]"

/-- Comma-joined array elements as `Array.prototype.toString` produces. -/
def jsToStringList : List JValue → String
  | [] => ""
  | [x] => jsToStringElem x
  | x :: xs => jsToStringElem x ++ "," ++ jsToStringList xs

/-- One array element under `join`: `null` (and `undefined`) print empty. -/
def jsToStringElem : JValue → String
  | .null => ""
  | v => jsToString v
end

end DDB

namespace DDB

/-- Lowercase hexadecimal digit for a nibble (used by JSON escapes and by
the hex codec of the encryption layer). -/
def nibbleChar (n : Nat) : Char :=
  match n with
  | 0 => '0' | 1 => '1' | 2 => '2' | 3 => '3' | 4 => '4'
  | 5 => '5' | 6 => '6' | 7 => '7' | 8 => '8' | 9 => '9'
  | 10 => 'a' | 11 => 'b' | 12 => 'c' | 13 => 'd' | 14 => 'e' | _ => 'f'

/-- The escape `JSON.stringify` applies to one string character. -/
def escapeChar (c : Char) : String :=
  if c = '"' then "\\\""
  else if c = '\\' then "\\\\"
  else if c = '\n' then "\\n"
  else if c = '\r' then "\\r"
  else if c = '\t' then "\\t"
  else if c = '\x08' then "\\b"
  else if c = '\x0c' then "\\f"
  else if c.toNat < 32 then
    "\\u00" ++ String.mk [nibbleChar (c.toNat / 16), nibbleChar (c.toNat % 16)]
  else String.mk [c]

/-- String-body escaping of `JSON.stringify`. -/
def escapeJson (s : String) : String :=
  String.join (s.data.map escapeChar)

mutual
/-- `JSON.stringify` on a JSON value (no indentation): the exact wire form
whose character count the store checks against the 2000-character ceiling. -/
def stringify : JValue → String
  | .null => "null"
  | .bool b => cond b "true" "false"
  | .num n => toString n
  | .str s => "\"" ++ escapeJson s ++ "\""
  | .arr xs => "[" ++ stringifyList xs ++ "]"
  | .obj fs => "\x7b" ++ stringifyFields fs ++ "\x7d"

/-- Comma-joined stringified array elements. -/
def stringifyList : List JValue → String
  | [] => ""
  | [x] => stringify x
  | x :: xs => stringify x ++ "," ++ stringifyList xs

/-- Comma-joined stringified object entries. -/
def stringifyFields : List (String × JValue) → String
  | [] => ""
  | [(k, v)] => "\"" ++ escapeJson k ++ "\":" ++ stringify v
  | (k, v) :: rest =>
    "\"" ++ escapeJson k ++ "\":" ++ stringify v ++ "," ++ stringifyFields rest
end

end DDB

namespace DDB

mutual
/-- `compareValues` from filters.ts lines 101-123, the filter engine's
equality: structurally identical to `deepEqual` of updates.ts; its
`Date` branch is dead for JSON values and its `RegExp` branch is
unreachable because the model's values contain no regular expressions.
As with `deepEqual`, JavaScript's generic object branch would also equate
an array with an index-keyed plain object; such mixed comparisons are
outside the model. -/
def compareValues : JValue → JValue → Bool
  | .null, .null => true
  | .bool a, .bool b => a == b
  | .num a, .num b => a == b
  | .str a, .str b => a == b
  | .arr a, .arr b => a.length == b.length && compareValuesList a b
  | .obj a, .obj b => a.length == b.length && compareValuesFields a b
  | _, _ => false

/-- Elementwise `a.every((item, index) => compareValues(item, b[index]))`. -/
def compareValuesList : List JValue → List JValue → Bool
  | [], _ => true
  | _ :: _, [] => true
  | x :: xs, y :: ys => compareValues x y && compareValuesList xs ys

/-- Keywise `aKeys.every(key => compareValues(a[key], b[key]))`. -/
def compareValuesFields : List (String × JValue) → Doc → Bool
  | [], _ => true
  | (k, v) :: rest, b =>
    (match lookupField b k with
     | some w => compareValues v w
     | none => false) && compareValuesFields rest b
end

/-- `compareValues` where the first argument is the resolved document value
and may be `undefined`: `undefined === x` fails for every model value `x`
(which is never `undefined` nor a `RegExp`), and every typeof-guarded
branch of the source rejects `undefined`, so the comparison is `false`. -/
def compareValuesU (a : Option JValue) (b : JValue) : Bool :=
  match a with
  | some av => compareValues av b
  | none => false

/-- The JavaScript relational comparison (`<`, `<=`, `>`, `>=`) between the
resolved document value and an operator operand, as far as the model
reaches: number/number, string/string (code-unit order) and
boolean/boolean (numeric coercion) compare; every comparison involving
`undefined` is NaN-poisoned and yields `none` (so all four operators are
`false`, as in JS); mixed-type numeric coercions (and `null`, whose JS
coercion to 0 makes e.g. `null >= 0` true) are outside the model and also
yield `none`. -/
def jsRel (a : Option JValue) (b : JValue) : Option Ordering :=
  match a, b with
  | some (.num x), .num y => some (compare x y)
  | some (.str x), .str y => some (compare x y)
  | some (.bool x), .bool y => some (compare (cond x (1 : Int) 0) (cond y 1 0))
  | _, _ => none

/-- Oracle for the external JavaScript regular-expression engine: given the
`$regex` operand, the `$options` sibling (if any) and the resolved document
value, decide `new RegExp(pattern, options).test(String(docValue))`. -/
abbrev RegexTest := JValue → Option JValue → Option JValue → Bool

/-- The non-recursive arms of the `switch (operator)` in
`evaluateOperators` (filters.ts lines 47-96): comparison, membership,
existence and regex operators; `$and`/`$or` at field level are trivially
true (the source defers them to document level), and unknown operators
(including the `$options` companion of `$regex`) fall through to `true`. -/
def evalOperatorPlain (rt : RegexTest) (allOps : List (String × JValue)) (docValue : Option JValue) (operator : String) (operatorValue : JValue) : Bool :=
  if operator == "$eq" then compareValuesU docValue operatorValue
  else if operator == "$ne" then !compareValuesU docValue operatorValue
  else if operator == "$gt" then jsRel docValue operatorValue == some .gt
  else if operator == "$gte" then
    jsRel docValue operatorValue == some .gt || jsRel docValue operatorValue == some .eq
  else if operator == "$lt" then jsRel docValue operatorValue == some .lt
  else if operator == "$lte" then
    jsRel docValue operatorValue == some .lt || jsRel docValue operatorValue == some .eq
  else if operator == "$in" then
    match operatorValue with
    | .arr vals => vals.any (fun val => compareValuesU docValue val)
    | _ => false
  else if operator == "$nin" then
    match operatorValue with
    | .arr vals => !vals.any (fun val => compareValuesU docValue val)
    | _ => false
  else if operator == "$exists" then
    if truthy operatorValue then docValue.isSome else docValue.isNone
  else if operator == "$regex" then rt operatorValue (lookupField allOps "$options") docValue
  else if operator == "$and" then true
  else if operator == "$or" then true
  else true

mutual
/-- `matchesFilter` from filters.ts lines 6-27: an empty filter matches
unconditionally, `$and`/`$or`/`$not` are handled at document level, and all
other keys are field conditions; keys conjoin.  (The recursion over the
entry list is the `Object.entries(filter).every` loop; the empty list gives
`true`, which also covers the source's explicit empty-filter early return.) -/
def matchesFilter (rt : RegexTest) (document : Doc) : List (String × JValue) → Bool
  | [] => true
  | (key, value) :: rest =>
    (if key == "$and" then
      match value with
      | .arr subs => matchesAllFilters rt document subs
      | _ => false
    else if key == "$or" then
      match value with
      | .arr subs => matchesAnyFilter rt document subs
      | _ => false
    else if key == "$not" then
      !matchesFilterValue rt document value
    else
      evaluateFieldFilter rt document key value)
    && matchesFilter rt document rest
termination_by structural l => l

/-- A recursive `matchesFilter(document, v)` call where `v` is an arbitrary
value: an object recurses; `null` is falsy and any other non-object has no
enumerable string-keyed entries to check, so the source returns `true`. -/
def matchesFilterValue (rt : RegexTest) (document : Doc) (v : JValue) : Bool :=
  match v with
  | .obj fs => matchesFilter rt document fs
  | _ => true
termination_by structural v

/-- `value.every(subFilter => matchesFilter(document, subFilter))`. -/
def matchesAllFilters (rt : RegexTest) (document : Doc) : List JValue → Bool
  | [] => true
  | sub :: rest => matchesFilterValue rt document sub && matchesAllFilters rt document rest
termination_by structural l => l

/-- `value.some(subFilter => matchesFilter(document, subFilter))`. -/
def matchesAnyFilter (rt : RegexTest) (document : Doc) : List JValue → Bool
  | [] => false
  | sub :: rest => matchesFilterValue rt document sub || matchesAnyFilter rt document rest
termination_by structural l => l

/-- `evaluateFieldFilter` from filters.ts lines 32-42: resolve the dot path,
then either evaluate an operator object or compare literally.  (The source
also exempts `Date` and `RegExp` instances from the operator-object branch;
neither exists among model values.) -/
def evaluateFieldFilter (rt : RegexTest) (document : Doc) (key : String) (filterValue : JValue) : Bool :=
  match filterValue with
  | .obj fs => evaluateOperators rt fs (getNestedValue (.obj document) key) fs
  | .null => compareValuesU (getNestedValue (.obj document) key) .null
  | .bool b => compareValuesU (getNestedValue (.obj document) key) (.bool b)
  | .num n => compareValuesU (getNestedValue (.obj document) key) (.num n)
  | .str s => compareValuesU (getNestedValue (.obj document) key) (.str s)
  | .arr xs => compareValuesU (getNestedValue (.obj document) key) (.arr xs)
termination_by structural filterValue

/-- The `Object.entries(operators).every` loop of `evaluateOperators`
(filters.ts lines 47-96); `allOps` is the whole operator object, kept for
the `$options` lookup of `$regex`. -/
def evaluateOperators (rt : RegexTest) (allOps : List (String × JValue)) (docValue : Option JValue) : List (String × JValue) → Bool
  | [] => true
  | (operator, operatorValue) :: rest =>
    evalOperator rt allOps docValue operator operatorValue
    && evaluateOperators rt allOps docValue rest
termination_by structural l => l

/-- One `switch (operator)` arm of `evaluateOperators`.  The source's
field-level `$not` arm calls `matchesFilter({ docValue }, operatorValue)`,
wrapping the resolved value in a fresh document under the literal key
`"docValue"` instead of applying the operators to the value (when the value
is `undefined` the wrapper holds an `undefined`-valued key, which no lookup
distinguishes from an empty document).  Since the switch cases are
mutually exclusive, the one recursive arm (`$not`) is tested first here
and the non-recursive arms live in `evalOperatorPlain`; the dispatch is
behaviourally identical to the source's switch. -/
def evalOperator (rt : RegexTest) (allOps : List (String × JValue)) (docValue : Option JValue) (operator : String) (operatorValue : JValue) : Bool :=
  if operator == "$not" then
    !(match operatorValue with
      | .obj fs =>
        matchesFilter rt
          (match docValue with
           | some dv => [("docValue", dv)]
           | none => [])
          fs
      | _ => true)
  else evalOperatorPlain rt allOps docValue operator operatorValue
termination_by structural operatorValue
end

end DDB

namespace DDB

/-- Character-level model of `key.startsWith('$')`: the first character is
the operator marker (equivalent to the one-character-prefix test). -/
def startsWithDollar (s : String) : Bool :=
  s.data.head? == some '$'

/-- `isUpdateOperators` from updates.ts lines 84-91: an update object is
operator-style iff some top-level key starts with `$`.  (The non-object and
`null` guards of the source are unreachable: the model's update
specifications are objects.) -/
def isUpdateOperators (update : Doc) : Bool :=
  update.any (fun kv => startsWithDollar kv.1)

/-- The object spread `{ ...document, ...update }` used for direct
(non-operator) updates: each update key overwrites in place or appends. -/
def mergeFields (document : Doc) (update : Doc) : Doc :=
  update.foldl (fun acc kv => setField acc kv.1 kv.2) document

/-- `getNestedValue(updatedDoc, key) || 0` from the `$inc` branch: a falsy
current value (`undefined`, `null`, `false`, `0`, the empty string) is
replaced by the number 0 before the typeof test. -/
def jsOrZero (v : Option JValue) : JValue :=
  match v with
  | some x => if truthy x then x else .num 0
  | none => .num 0

/-- One `$set` entry: write the value at the dot path. -/
def setStep (d : Doc) (kv : String × JValue) : Doc :=
  setNestedValue d kv.1 kv.2

/-- One `$unset` entry (`Object.keys` iteration): remove the leaf key. -/
def unsetStep (d : Doc) (kv : String × JValue) : Doc :=
  unsetNestedValue d kv.1

/-- One `$inc` entry (updates.ts lines 31-38): coerce a falsy current value
to 0, then add only when both the (coerced) current value and the increment
are numbers; otherwise leave the document untouched. -/
def incStep (d : Doc) (kv : String × JValue) : Doc :=
  match jsOrZero (getNestedValue (.obj d) kv.1), kv.2 with
  | .num currentValue, .num increment => setNestedValue d kv.1 (.num (currentValue + increment))
  | _, _ => d

/-- One `$push` entry (updates.ts lines 41-50): append to an existing
array, else overwrite with a fresh one-element array. -/
def pushStep (d : Doc) (kv : String × JValue) : Doc :=
  match getNestedValue (.obj d) kv.1 with
  | some (.arr currentValue) => setNestedValue d kv.1 (.arr (currentValue ++ [kv.2]))
  | _ => setNestedValue d kv.1 (.arr [kv.2])

/-- One `$pull` entry (updates.ts lines 53-61): drop every element
deep-equal to the operand from an existing array; no-op otherwise. -/
def pullStep (d : Doc) (kv : String × JValue) : Doc :=
  match getNestedValue (.obj d) kv.1 with
  | some (.arr currentValue) =>
    setNestedValue d kv.1 (.arr (currentValue.filter (fun item => !deepEqual item kv.2)))
  | _ => d

/-- One `$addToSet` entry (updates.ts lines 64-76): append unless a
deep-equal element already exists; a non-array value is overwritten with a
fresh one-element array. -/
def addToSetStep (d : Doc) (kv : String × JValue) : Doc :=
  match getNestedValue (.obj d) kv.1 with
  | some (.arr currentValue) =>
    if currentValue.any (fun item => deepEqual item kv.2) then d
    else setNestedValue d kv.1 (.arr (currentValue ++ [kv.2]))
  | _ => setNestedValue d kv.1 (.arr [kv.2])

/-- One operator group of `applyUpdate`: the source guards each group with
a truthiness check (`if (operators.$set) ...`) and then iterates
`Object.entries` of the operand (which is empty for primitives). -/
def applyStage (update : Doc) (opName : String) (step : Doc → String × JValue → Doc) (d : Doc) : Doc :=
  match lookupField update opName with
  | some v => if truthy v then (jsEntries v).foldl step d else d
  | none => d

/-- `applyUpdate` from updates.ts lines 6-79: direct specifications merge
like `$set`; operator-style specifications apply the six groups in the
source's fixed order `$set`, `$unset`, `$inc`, `$push`, `$pull`,
`$addToSet`.  Top-level keys that are not one of these six are never read.
(The source's `{ ...document }` shallow copy aliases nested values; the
model is the resulting document value.) -/
def applyUpdate (document : Doc) (update : Doc) : Doc :=
  if !isUpdateOperators update then
    mergeFields document update
  else
    applyStage update "$addToSet" addToSetStep
      (applyStage update "$pull" pullStep
        (applyStage update "$push" pushStep
          (applyStage update "$inc" incStep
            (applyStage update "$unset" unsetStep
              (applyStage update "$set" setStep document)))))

/-- The `$inc` validation loop: every operand value must be a number, else
a descriptive error naming the field. -/
def checkIncEntries : List (String × JValue) → Except String Unit
  | [] => .ok ()
  | (key, value) :: rest =>
    match value with
    | .num _ => checkIncEntries rest
    | _ =>
      .error ("$inc operator requires numeric values. Got " ++ jsTypeof value
        ++ " for field \"" ++ key ++ "\"")

/-- The `$unset` validation loop: every operand must be the literal `1` or
`true`, else a descriptive error naming the field. -/
def checkUnsetEntries : List (String × JValue) → Except String Unit
  | [] => .ok ()
  | (key, value) :: rest =>
    if value matches .num 1 then checkUnsetEntries rest
    else if value matches .bool true then checkUnsetEntries rest
    else
      .error ("$unset operator requires value 1 or true. Got " ++ jsToString value
        ++ " for field \"" ++ key ++ "\"")

/-- `validateUpdate` from updates.ts lines 164-190: non-objects are
rejected (unreachable in the model, whose update specifications are
objects); operator-style specifications have their `$inc` and `$unset`
operands checked, in that order, each behind the same truthiness guard as
`applyUpdate`; nothing else is checked — in particular no check rejects
mixing operator and non-operator keys. -/
def validateUpdate (update : Doc) : Except String Unit :=
  if isUpdateOperators update then do
    (match lookupField update "$inc" with
     | some v => if truthy v then checkIncEntries (jsEntries v) else .ok ()
     | none => .ok ())
    (match lookupField update "$unset" with
     | some v => if truthy v then checkUnsetEntries (jsEntries v) else .ok ()
     | none => .ok ())
  else .ok ()

end DDB

namespace DDB

/-- A JavaScript comparator result sign as an integer. -/
def ordToInt : Ordering → Int
  | .lt => -1
  | .eq => 0
  | .gt => 1

/-- `compareForSort` from filters.ts lines 160-178: identical values tie;
`null`/`undefined` sort first; strings compare by `localeCompare` (modelled
as code-point order) and numbers by difference; every other pairing falls
back to comparing `String(a)` with `String(b)`.  The `Date` branch is dead
for JSON values. -/
def compareForSort : Option JValue → Option JValue → Int
  | none, none => 0
  | none, some _ => -1
  | some _, none => 1
  | some .null, some .null => 0
  | some .null, some _ => -1
  | some _, some .null => 1
  | some (.str a), some (.str b) => ordToInt (compare a b)
  | some (.num a), some (.num b) => a - b
  | some a, some b => ordToInt (compare (jsToString a) (jsToString b))

/-- `normalizeSortDirection` from filters.ts lines 183-187. -/
def normalizeSortDirection : JValue → Int
  | .num 1 => 1
  | .str "asc" => 1
  | .num (-1) => -1
  | .str "desc" => -1
  | _ => 1

/-- The comparator closure of `sortDocuments`: first non-zero keyed
comparison wins, scaled by its direction; all keys tying compares equal. -/
def docCompare (sortOption : List (String × JValue)) (a b : Doc) : Int :=
  match sortOption with
  | [] => 0
  | (field, direction) :: rest =>
    let comparison := compareForSort (getNestedValue (.obj a) field) (getNestedValue (.obj b) field)
    if comparison != 0 then comparison * normalizeSortDirection direction
    else docCompare rest a b

/-- Stable comparator insertion: the inserted element goes after every
earlier element it does not strictly precede. -/
def orderedInsert (cmp : Doc → Doc → Int) (x : Doc) : List Doc → List Doc
  | [] => [x]
  | y :: ys => if cmp x y < 0 then x :: y :: ys else y :: orderedInsert cmp x ys

/-- Stable comparator sort modelling `Array.prototype.sort` (stable per the
ECMAScript specification). -/
def insertionSort (cmp : Doc → Doc → Int) (l : List Doc) : List Doc :=
  l.foldl (fun acc x => orderedInsert cmp x acc) []

/-- `sortDocuments` from filters.ts lines 137-155: an empty sort option
returns the input unchanged, otherwise a stable comparator sort of a copy. -/
def sortDocuments (documents : List Doc) (sortOption : List (String × JValue)) : List Doc :=
  if sortOption.isEmpty then documents
  else insertionSort (docCompare sortOption) documents

/-- Lookup in a projection object. -/
def lookupProjection : List (String × Int) → String → Option Int
  | [], _ => none
  | (k, v) :: rest, key => if k == key then some v else lookupProjection rest key

/-- The inclusive branch of `applyProjection`: copy each listed field
(resolved through the dot path), then keep `_id` unless explicitly
excluded.  (In JS a projected field or `_id` that resolves to `undefined`
is assigned as an `undefined`-valued key, observationally absent; the model
omits it.) -/
def projectInclusive (doc : Doc) (projection : List (String × Int)) : Doc :=
  let projected := projection.foldl (fun acc kv =>
    if kv.2 == 1 then
      match getNestedValue (.obj doc) kv.1 with
      | some v => setField acc kv.1 v
      | none => acc
    else acc) []
  match lookupProjection projection "_id" with
  | some 0 => projected
  | _ =>
    match lookupField doc "_id" with
    | some v => setField projected "_id" v
    | none => projected

/-- `applyProjection` from filters.ts lines 192-222: an empty projection is
the identity; any `1` flag selects inclusive mode, else every `0`-flagged
top-level key is deleted from a copy of the document. -/
def applyProjection (documents : List Doc) (projection : List (String × Int)) : List Doc :=
  if projection.isEmpty then documents
  else
    let isInclusive := projection.any (fun kv => kv.2 == 1)
    documents.map (fun doc =>
      if isInclusive then projectInclusive doc projection
      else projection.foldl (fun acc kv => if kv.2 == 0 then removeField acc kv.1 else acc) doc)

/-- `applyPagination` from filters.ts lines 227-233: drop `skip` documents
(0 when absent), then take at most `limit` when one is given. -/
def applyPagination (documents : List Doc) (skip : Nat) (limit : Option Nat) : List Doc :=
  match limit with
  | some l => (documents.drop skip).take l
  | none => documents.drop skip

/-- The `QueryOptions` shape of a find call; absent members are `none`. -/
structure QueryOptionsM where
  limit : Option Nat
  skip : Option Nat
  sort : Option (List (String × JValue))
  projection : Option (List (String × Int))

/-- The `FindResult` shape. -/
structure FindResultM where
  documents : List Doc
  total : Nat
  hasMore : Bool
deriving Repr

/-- `find` from discord-db.ts lines 58-84, over the refreshed cached
document list: filter, then sort (when requested), then record the total,
then paginate, then project; `hasMore` is reported only when a (truthy)
limit was given. -/
def find (rt : RegexTest) (docs : List Doc) (filter : Doc) (options : QueryOptionsM) : FindResultM :=
  let filtered := docs.filter (fun doc => matchesFilter rt doc filter)
  let sorted :=
    match options.sort with
    | some s => sortDocuments filtered s
    | none => filtered
  let total := sorted.length
  let paged := applyPagination sorted (options.skip.getD 0) options.limit
  let projected :=
    match options.projection with
    | some p => applyProjection paged p
    | none => paged
  ⟨projected, total,
    match options.limit with
    | some l => if l == 0 then false else decide (options.skip.getD 0 + projected.length < total)
    | none => false⟩

end DDB

namespace DDB

/-- Store error taxonomy as observable through `handleError`
(discord-db.ts lines 177-181): a `ValidationError` passes through
unchanged (it is a `DiscordDBError`), any other `Error` is re-wrapped as a
generic `DiscordDBError` carrying the original message. -/
inductive DBError where
  | validation : String → DBError
  | generic : String → DBError
deriving Repr, DecidableEq

/-- The `UpdateResult` shape. -/
structure UpdateResultM where
  acknowledged : Bool
  matchedCount : Nat
  modifiedCount : Nat
deriving Repr, DecidableEq

/-- The `DeleteResult` shape. -/
structure DeleteResultM where
  acknowledged : Bool
  deletedCount : Nat
deriving Repr, DecidableEq

/-- The store's in-memory cache `Map<string, DBDocument>`, with its keys
kept abstract as the (possibly missing) `_id` values used at `set`/`delete`
call sites.  JavaScript `Map` keys compare by SameValueZero; for the
primitive keys the store uses this is value equality (object keys would
compare by reference and are outside the model). -/
abbrev CacheState := List (Option JValue × Doc)

/-- SameValueZero on cache keys, restricted to the primitive values a
document identifier can be. -/
def sameValueZero : Option JValue → Option JValue → Bool
  | none, none => true
  | some .null, some .null => true
  | some (.bool a), some (.bool b) => a == b
  | some (.num a), some (.num b) => a == b
  | some (.str a), some (.str b) => a == b
  | _, _ => false

/-- `cache.set(key, doc)`: replace the first matching key or append. -/
def cacheSet : CacheState → Option JValue → Doc → CacheState
  | [], key, doc => [(key, doc)]
  | (k, d) :: rest, key, doc =>
    if sameValueZero k key then (k, doc) :: rest
    else (k, d) :: cacheSet rest key doc

/-- `cache.delete(key)`: remove the first matching entry. -/
def cacheDelete : CacheState → Option JValue → CacheState
  | [], _ => []
  | (k, d) :: rest, key =>
    if sameValueZero k key then rest
    else (k, d) :: cacheDelete rest key

/-- `Array.from(this.cache.values())`: the fresh-cache document list every
read operation works on. -/
def cacheDocs (state : CacheState) : List Doc :=
  state.map (fun kv => kv.2)

/-- An edit dispatched to the transport: the `_messageId` the store read
from the matched document, and the serialized content. -/
abbrev EditCall := Option JValue × String

/-- `findOne` from discord-db.ts lines 86-89 over a fresh cache:
`find(filter, { limit: 1 })` and the first resulting document (`|| null`
never demotes a document, which is always truthy). -/
def findOne (rt : RegexTest) (state : CacheState) (filter : Doc) : Option Doc :=
  (find rt (cacheDocs state) filter ⟨some 1, none, none, none⟩).documents.head?

/-- `updateOne` from discord-db.ts lines 91-114 over a fresh cache, with
the transport edit call recorded instead of performed (the mock-free model
of a succeeding transport): validate first (a plain validation `Error`
surfaces as a generic `DiscordDBError` via `handleError`), return zero
counts when nothing matches, and otherwise apply the update, enforce the
2000-character ceiling on the serialized result (a `ValidationError`), edit
the message identified by the matched document's `_messageId`, and store
the updated document in the cache under the matched document's `_id`. -/
def updateOne (rt : RegexTest) (state : CacheState) (filter : Doc) (update : Doc) :
    Except DBError (UpdateResultM × CacheState × List EditCall) :=
  match validateUpdate update with
  | .error e => .error (.generic e)
  | .ok _ =>
    match findOne rt state filter with
    | none => .ok (⟨true, 0, 0⟩, state, [])
    | some document =>
      let updatedDoc := applyUpdate document update
      let content := stringify (.obj updatedDoc)
      if content.length > 2000 then .error (.validation "Updated document too large.")
      else
        .ok (⟨true, 1, 1⟩,
          cacheSet state (lookupField document "_id") updatedDoc,
          [(lookupField document "_messageId", content)])

/-- The body of the `updateMany` per-document loop (discord-db.ts lines
213-229): an updated document serializing beyond protection ceiling is
skipped (logged, not counted), otherwise the edit is dispatched, the cache
entry replaced and the counter incremented; the transport edit is modelled
as succeeding, so the surrounding per-item `catch` is dead. -/
def updateManyStep (update : Doc) (acc : Nat × CacheState × List EditCall) (doc : Doc) :
    Nat × CacheState × List EditCall :=
  let updatedDoc := applyUpdate doc update
  let content := stringify (.obj updatedDoc)
  if content.length > 2000 then acc
  else
    (acc.1 + 1,
     cacheSet acc.2.1 (lookupField doc "_id") updatedDoc,
     acc.2.2 ++ [(lookupField doc "_messageId", content)])

/-- `updateMany` from discord-db.ts lines 206-239 over a fresh cache:
validate, select every matching document from the full cached list, then
run the per-document loop; `matchedCount` is the number of matches and
`modifiedCount` the number of successfully edited documents. -/
def updateMany (rt : RegexTest) (state : CacheState) (filter : Doc) (update : Doc) :
    Except DBError (UpdateResultM × CacheState × List EditCall) :=
  match validateUpdate update with
  | .error e => .error (.generic e)
  | .ok _ =>
    let matchingDocs := (cacheDocs state).filter (fun doc => matchesFilter rt doc filter)
    let r := matchingDocs.foldl (updateManyStep update) (0, state, [])
    .ok (⟨true, matchingDocs.length, r.1⟩, r.2.1, r.2.2)

/-- `deleteOne` from discord-db.ts lines 116-130 over a fresh cache, the
transport delete recorded (by the `_messageId` it targets) instead of
performed: zero counts when nothing matches, else delete the message and
drop the cache entry keyed by the document's `_id`. -/
def deleteOne (rt : RegexTest) (state : CacheState) (filter : Doc) :
    Except DBError (DeleteResultM × CacheState × List (Option JValue)) :=
  match findOne rt state filter with
  | none => .ok (⟨true, 0⟩, state, [])
  | some document =>
    .ok (⟨true, 1⟩,
      cacheDelete state (lookupField document "_id"),
      [lookupField document "_messageId"])

/-- A raw transport message as the reload loop consumes it. -/
structure RawMessage where
  id : String
  timestamp : String
  content : String

/-- Whitespace for the model of `String.prototype.trim`. -/
def isJsWhitespace (c : Char) : Bool :=
  c = ' ' || c = '\t' || c = '\n' || c = '\r' || c = '\x0b' || c = '\x0c'

/-- Character-level model of `String.prototype.trim` (both ends). -/
def jsTrim (s : String) : String :=
  String.mk (((s.data.dropWhile isJsWhitespace).reverse.dropWhile isJsWhitespace).reverse)

/-- The cache-refresh parse loop of `getAllDocuments` (discord-db.ts lines
139-163), with `JSON.parse` — an external JS builtin — supplied as an
oracle (`none` models a parse exception, caught by the per-message `catch`).
Each non-blank entry that parses to an object gets `_messageId` and
`_timestamp` assigned and is kept iff its `_id` is truthy; blank entries,
parse failures and non-objects (primitives reject property assignment or
lose it, and have no truthy `_id`) are all skipped silently — the loop can
not raise.  Returns the documents list and the rebuilt cache. -/
def reloadDocuments (jsonParse : String → Option JValue) (messages : List RawMessage) :
    List Doc × CacheState :=
  messages.foldl (fun acc message =>
    if jsTrim message.content != "" then
      match jsonParse message.content with
      | some (.obj fs) =>
        let doc := setField (setField fs "_messageId" (.str message.id))
          "_timestamp" (.str message.timestamp)
        if truthyOpt (lookupField doc "_id") then
          (acc.1 ++ [doc], cacheSet acc.2 (lookupField doc "_id") doc)
        else acc
      | some _ => acc
      | none => acc
    else acc) ([], [])

end DDB

namespace DDB

/-- `Buffer.prototype.toString('hex')`: two lowercase hex digits per byte. -/
def hexEncode (bytes : List Nat) : String :=
  String.mk ((bytes.map (fun b => [nibbleChar (b / 16), nibbleChar (b % 16)])).flatten)

/-- Value of one hex digit (`Buffer.from(..., 'hex')` accepts both cases). -/
def hexDigitVal (c : Char) : Option Nat :=
  let n := c.toNat
  if 48 ≤ n && n ≤ 57 then some (n - 48)
  else if 97 ≤ n && n ≤ 102 then some (n - 87)
  else if 65 ≤ n && n ≤ 70 then some (n - 55)
  else none

/-- `Buffer.from(string, 'hex')` pair-decoding loop: stops at the first
invalid or incomplete pair, as node does. -/
def hexDecodeChars : List Char → List Nat
  | c1 :: c2 :: rest =>
    (match hexDigitVal c1, hexDigitVal c2 with
     | some hi, some lo => (16 * hi + lo) :: hexDecodeChars rest
     | _, _ => [])
  | _ => []

/-- `Buffer.from(string, 'hex')` on a string. -/
def hexDecode (s : String) : List Nat :=
  hexDecodeChars s.data

/-- The external `node:crypto` / `Buffer` primitives the encryption service
calls, modelled at their interface boundary: UTF-8 transcoding
(`cipher.update(data, 'utf8', ...)` / `decipher.update(..., 'hex', 'utf8')`),
the AES-256-CBC cipher pair behind `createCipheriv`/`createDecipheriv`
(key, then IV, then message bytes), and the SHA-256 digest behind
`createHash('sha256')`.  Their contracts (cipher inversion, byte-valued
output, UTF-8 round trip) appear as hypotheses of the theorems that need
them. -/
structure CryptoPrimitives where
  utf8Encode : String → List Nat
  utf8Decode : List Nat → String
  cipherEncrypt : List Nat → List Nat → List Nat → List Nat
  cipherDecrypt : List Nat → List Nat → List Nat → List Nat
  sha256 : String → List Nat

/-- The `EncryptedData` wrapper (types, as produced by `encrypt`). -/
structure EncryptedData where
  data : String
  iv : String
  encrypted : Bool
deriving Repr, DecidableEq

/-- `deriveKey` from encryption.ts lines 67-71: SHA-256 of the passphrase. -/
def deriveKey (cp : CryptoPrimitives) (encryptionKey : String) : List Nat :=
  cp.sha256 encryptionKey

/-- `EncryptionService.encrypt` from encryption.ts lines 18-34, with the
fresh random IV (`randomBytes(16)`, external randomness) supplied as an
argument: encrypt the UTF-8 plaintext under the derived key and the IV,
and wrap ciphertext and IV as hex strings with the `encrypted` marker. -/
def encrypt (cp : CryptoPrimitives) (encryptionKey : String) (iv : List Nat) (data : String) :
    EncryptedData :=
  let key := deriveKey cp encryptionKey
  ⟨hexEncode (cp.cipherEncrypt key iv (cp.utf8Encode data)), hexEncode iv, true⟩

/-- `EncryptionService.decrypt` from encryption.ts lines 39-51: decode the
hex IV and ciphertext, decrypt under the derived key, decode UTF-8.  (The
standalone `encrypt`/`decrypt` helpers of encryption.ts lines 77-85 each
construct a fresh service from the same passphrase, hence the same derived
key.) -/
def decrypt (cp : CryptoPrimitives) (encryptionKey : String) (encryptedData : EncryptedData) :
    String :=
  let key := deriveKey cp encryptionKey
  let iv := hexDecode encryptedData.iv
  cp.utf8Decode (cp.cipherDecrypt key iv (hexDecode encryptedData.data))

/-- `EncryptionService.isEncrypted` from encryption.ts lines 56-62, on a
parsed JSON value: a non-null object whose `encrypted` property is the
boolean `true` and whose `data` and `iv` properties are strings.  (An array
is also `typeof 'object'` in JS but has none of the three own properties,
so it fails the check there and here.) -/
def isEncrypted (data : JValue) : Bool :=
  match data with
  | .obj fs =>
    (match lookupField fs "encrypted" with
     | some (.bool true) => true
     | _ => false)
    && (match lookupField fs "data" with
        | some (.str _) => true
        | _ => false)
    && (match lookupField fs "iv" with
        | some (.str _) => true
        | _ => false)
  | _ => false

end DDB

namespace DDB

/-- First path segment of a dot path (the only top-level key the nested
write and remove walks of the update engine can touch). -/
def pathHead (path : String) : String :=
  (splitPath path).headD ""

/-- Whether one operator group of an update specification carries an entry
whose dot path begins at the top-level field `f` (the only way that group
can write or remove the top-level field `f`). -/
def opTouches (update : Doc) (opName : String) (f : String) : Bool :=
  match lookupField update opName with
  | some v => truthy v && (jsEntries v).any (fun kv => pathHead kv.1 == f)
  | none => false

/-- Whether an update specification mentions the top-level field `f` at
all: a direct (non-operator) specification carries the key itself, an
operator-style one carries some operand path starting at `f` in one of the
six groups `applyUpdate` reads. -/
def touchesTopField (update : Doc) (f : String) : Bool :=
  if isUpdateOperators update then
    opTouches update "$set" f || opTouches update "$unset" f
      || opTouches update "$inc" f || opTouches update "$push" f
      || opTouches update "$pull" f || opTouches update "$addToSet" f
  else update.any (fun kv => kv.1 == f)

/-- Whether a document still fits the 2000-character transport ceiling
after the update is applied and the result serialized — the test both
`updateOne` and the `updateMany` loop perform. -/
def fitsDoc (update : Doc) (doc : Doc) : Bool :=
  decide ((stringify (.obj (applyUpdate doc update))).length ≤ 2000)

/-- Whether a value is a plain object (the shape that routes a filter
value into the operator-object branch). -/
def isObjValue : JValue → Bool
  | .obj _ => true
  | _ => false

/-- A concrete instance of the external crypto interface (byte-per-char
transcoding for plaintexts in the Latin-1 range, the identity cipher, a
constant digest), used only to exhibit that the interface contracts are
satisfiable at the inputs of witnesses. -/
def toyCrypto : CryptoPrimitives :=
  ⟨fun s => s.data.map Char.toNat,
   fun l => String.mk (l.map Char.ofNat),
   fun _ _ m => m,
   fun _ _ m => m,
   fun _ => [42]⟩

theorem lookupField_setField_self (d : Doc) (key : String) (value : JValue) :
    lookupField (setField d key value) key = some value := by
  induction d with
  | nil => simp [setField, lookupField]
  | cons kv rest ih =>
    obtain ⟨k, v⟩ := kv
    by_cases h : k = key
    · simp [setField, lookupField, h]
    · simp [setField, lookupField, h, ih]

theorem lookupField_setField_ne (d : Doc) (key f : String) (value : JValue)
    (h : key ≠ f) : lookupField (setField d key value) f = lookupField d f := by
  induction d with
  | nil => simp [setField, lookupField, h]
  | cons kv rest ih =>
    obtain ⟨k, v⟩ := kv
    by_cases hk : k = key
    · subst hk
      simp [setField, lookupField, h]
    · simp [setField, lookupField, hk, ih]

theorem setField_of_lookupField (d : Doc) (key : String) (value : JValue)
    (h : lookupField d key = some value) : setField d key value = d := by
  induction d with
  | nil => simp [lookupField] at h
  | cons kv rest ih =>
    obtain ⟨k, v⟩ := kv
    by_cases hk : k = key
    · subst hk
      simp [lookupField] at h
      simp [setField, h]
    · simp [lookupField, hk] at h
      simp [setField, hk, ih h]

theorem setField_setField (d : Doc) (key : String) (x y : JValue) :
    setField (setField d key x) key y = setField d key y := by
  induction d with
  | nil => simp [setField]
  | cons kv rest ih =>
    obtain ⟨k, v⟩ := kv
    by_cases hk : k = key
    · simp [setField, hk]
    · simp [setField, hk, ih]

theorem lookupField_removeField_ne (d : Doc) (key f : String) (h : key ≠ f) :
    lookupField (removeField d key) f = lookupField d f := by
  induction d with
  | nil => simp [removeField]
  | cons kv rest ih =>
    obtain ⟨k, v⟩ := kv
    by_cases hk : k = key
    · subst hk
      simp [removeField, lookupField, h]
    · simp [removeField, lookupField, hk, ih]

theorem splitPathChars_ne_nil (l : List Char) : splitPathChars l ≠ [] := by
  induction l with
  | nil => simp [splitPathChars]
  | cons c rest ih =>
    by_cases hc : c = '.'
    · simp [splitPathChars, hc]
    · simp only [splitPathChars, if_neg hc]
      cases h : splitPathChars rest with
      | nil => simp
      | cons seg segs => simp

theorem splitPath_ne_nil (path : String) : splitPath path ≠ [] := by
  simp [splitPath, splitPathChars_ne_nil]

theorem getNestedKeys_none (keys : List String) : getNestedKeys none keys = none := by
  induction keys with
  | nil => simp [getNestedKeys]
  | cons key rest ih => simp [getNestedKeys, getNestedStep, ih]

end DDB

namespace DDB

theorem getNestedStep_of_not_obj (c : JValue) (key : String)
    (h : ∀ fs, c ≠ .obj fs) : getNestedStep (some c) key = none := by
  cases c with
  | obj fs => exact absurd rfl (h fs)
  | null => simp [getNestedStep, truthy]
  | bool b => cases b <;> simp [getNestedStep, truthy, jsIndex]
  | num n => simp [getNestedStep, truthy, jsIndex]
  | str s => simp [getNestedStep, truthy, jsIndex]
  | arr xs => simp [getNestedStep, truthy, jsIndex]

theorem getNestedKeys_setNestedKeys (keys : List String) (d : Doc) (v : JValue)
    (h : keys ≠ []) :
    getNestedKeys (some (.obj (setNestedKeys d keys v))) keys = some v := by
  induction keys generalizing d with
  | nil => exact absurd rfl h
  | cons k rest ih =>
    cases rest with
    | nil =>
      simp [setNestedKeys, getNestedKeys, getNestedStep, truthy, jsIndex,
        lookupField_setField_self]
    | cons r rs =>
      cases hl : lookupField d k with
      | some c =>
        cases c with
        | obj inner =>
          simp only [setNestedKeys, hl, getNestedKeys, getNestedStep, truthy, jsIndex,
            lookupField_setField_self, if_pos]
          exact ih inner (by simp)
        | null =>
          simp only [setNestedKeys, hl, getNestedKeys, getNestedStep, truthy, jsIndex,
            lookupField_setField_self, if_pos]
          exact ih [] (by simp)
        | bool b =>
          simp only [setNestedKeys, hl, getNestedKeys, getNestedStep, truthy, jsIndex,
            lookupField_setField_self, if_pos]
          exact ih [] (by simp)
        | num n =>
          simp only [setNestedKeys, hl, getNestedKeys, getNestedStep, truthy, jsIndex,
            lookupField_setField_self, if_pos]
          exact ih [] (by simp)
        | str s =>
          simp only [setNestedKeys, hl, getNestedKeys, getNestedStep, truthy, jsIndex,
            lookupField_setField_self, if_pos]
          exact ih [] (by simp)
        | arr xs =>
          simp only [setNestedKeys, hl, getNestedKeys, getNestedStep, truthy, jsIndex,
            lookupField_setField_self, if_pos]
          exact ih [] (by simp)
      | none =>
        simp only [setNestedKeys, hl, getNestedKeys, getNestedStep, truthy, jsIndex,
          lookupField_setField_self, if_pos]
        exact ih [] (by simp)

theorem setNestedKeys_setNestedKeys (keys : List String) (d : Doc) (x y : JValue) :
    setNestedKeys (setNestedKeys d keys x) keys y = setNestedKeys d keys y := by
  induction keys generalizing d with
  | nil => simp [setNestedKeys]
  | cons k rest ih =>
    cases rest with
    | nil => simp [setNestedKeys, setField_setField]
    | cons r rs =>
      cases hl : lookupField d k with
      | some c =>
        cases c with
        | obj inner =>
          simp only [setNestedKeys, hl, lookupField_setField_self, setField_setField, ih]
        | null =>
          simp only [setNestedKeys, hl, lookupField_setField_self, setField_setField, ih]
        | bool b =>
          simp only [setNestedKeys, hl, lookupField_setField_self, setField_setField, ih]
        | num n =>
          simp only [setNestedKeys, hl, lookupField_setField_self, setField_setField, ih]
        | str s =>
          simp only [setNestedKeys, hl, lookupField_setField_self, setField_setField, ih]
        | arr xs =>
          simp only [setNestedKeys, hl, lookupField_setField_self, setField_setField, ih]
      | none =>
        simp only [setNestedKeys, hl, lookupField_setField_self, setField_setField, ih]

theorem setNestedKeys_of_getNestedKeys (keys : List String) (d : Doc) (w : JValue)
    (h : getNestedKeys (some (.obj d)) keys = some w) :
    setNestedKeys d keys w = d := by
  induction keys generalizing d with
  | nil =>
    simp [getNestedKeys] at h
    simp [setNestedKeys, h]
  | cons k rest ih =>
    have hstep : getNestedStep (some (JValue.obj d)) k = lookupField d k := by
      simp [getNestedStep, truthy, jsIndex]
    cases rest with
    | nil =>
      simp only [getNestedKeys, hstep] at h
      simp [setNestedKeys, setField_of_lookupField d k w h]
    | cons r rs =>
      simp only [getNestedKeys, hstep] at h
      cases hl : lookupField d k with
      | none =>
        rw [hl] at h
        simp only [getNestedStep] at h
        rw [getNestedKeys_none] at h
        exact absurd h (by simp)
      | some c =>
        rw [hl] at h
        cases c with
        | obj inner =>
          have h3 : getNestedKeys (some (JValue.obj inner)) (r :: rs) = some w := h
          have := ih inner h3
          simp [setNestedKeys, hl, this, setField_of_lookupField d k _ hl]
        | null =>
          rw [getNestedStep_of_not_obj _ _ (by intro fs; simp), getNestedKeys_none] at h
          exact absurd h (by simp)
        | bool b =>
          rw [getNestedStep_of_not_obj _ _ (by intro fs; simp), getNestedKeys_none] at h
          exact absurd h (by simp)
        | num n =>
          rw [getNestedStep_of_not_obj _ _ (by intro fs; simp), getNestedKeys_none] at h
          exact absurd h (by simp)
        | str s =>
          rw [getNestedStep_of_not_obj _ _ (by intro fs; simp), getNestedKeys_none] at h
          exact absurd h (by simp)
        | arr xs =>
          rw [getNestedStep_of_not_obj _ _ (by intro fs; simp), getNestedKeys_none] at h
          exact absurd h (by simp)

theorem lookupField_setNestedKeys_ne (keys : List String) (d : Doc) (v : JValue)
    (f : String) (hne : keys ≠ []) (hhead : keys.headD "" ≠ f) :
    lookupField (setNestedKeys d keys v) f = lookupField d f := by
  cases keys with
  | nil => exact absurd rfl hne
  | cons k rest =>
    simp only [List.headD] at hhead
    cases rest with
    | nil => simp [setNestedKeys, lookupField_setField_ne d k f v hhead]
    | cons r rs =>
      cases hl : lookupField d k with
      | some c =>
        cases c <;>
          simp [setNestedKeys, hl, lookupField_setField_ne _ k f _ hhead]
      | none => simp [setNestedKeys, hl, lookupField_setField_ne _ k f _ hhead]

theorem lookupField_unsetNestedKeys_ne (keys : List String) (d : Doc)
    (f : String) (hhead : keys.headD "" ≠ f) :
    lookupField (unsetNestedKeys d keys) f = lookupField d f := by
  cases keys with
  | nil => simp [unsetNestedKeys]
  | cons k rest =>
    simp only [List.headD] at hhead
    cases rest with
    | nil => simp [unsetNestedKeys, lookupField_removeField_ne d k f hhead]
    | cons r rs =>
      cases hl : lookupField d k with
      | some c =>
        cases c <;>
          simp [unsetNestedKeys, hl, lookupField_setField_ne _ k f _ hhead]
      | none => simp [unsetNestedKeys, hl]

theorem lookupField_foldl_preserve {α : Type} (f : String) (step : Doc → α → Doc)
    (l : List α) (d : Doc)
    (h : ∀ acc a, a ∈ l → lookupField (step acc a) f = lookupField acc f) :
    lookupField (l.foldl step d) f = lookupField d f := by
  induction l generalizing d with
  | nil => simp
  | cons a rest ih =>
    rw [List.foldl_cons, ih (step d a) (fun acc b hb => h acc b (by simp [hb])),
      h d a (by simp)]

theorem orderedInsert_length (cmp : Doc → Doc → Int) (x : Doc) (l : List Doc) :
    (orderedInsert cmp x l).length = l.length + 1 := by
  induction l with
  | nil => simp [orderedInsert]
  | cons y ys ih =>
    by_cases h : cmp x y < 0
    · simp [orderedInsert, h]
    · simp [orderedInsert, h, ih]

theorem insertionSort_length (cmp : Doc → Doc → Int) (l : List Doc) :
    (insertionSort cmp l).length = l.length := by
  suffices hgen : ∀ acc : List Doc,
      (l.foldl (fun acc x => orderedInsert cmp x acc) acc).length = acc.length + l.length by
    simpa using hgen []
  induction l with
  | nil => simp
  | cons x xs ih =>
    intro acc
    rw [List.foldl_cons, ih (orderedInsert cmp x acc), orderedInsert_length,
      List.length_cons]
    omega

theorem sortDocuments_length (documents : List Doc) (sortOption : List (String × JValue)) :
    (sortDocuments documents sortOption).length = documents.length := by
  by_cases h : sortOption.isEmpty
  · simp [sortDocuments, h]
  · simp [sortDocuments, h, insertionSort_length]

end DDB

namespace DDB

theorem lookupField_setNestedValue_ne (d : Doc) (p : String) (v : JValue) (f : String)
    (h : pathHead p ≠ f) :
    lookupField (setNestedValue d p v) f = lookupField d f :=
  lookupField_setNestedKeys_ne (splitPath p) d v f (splitPath_ne_nil p) h

theorem lookupField_unsetNestedValue_ne (d : Doc) (p : String) (f : String)
    (h : pathHead p ≠ f) :
    lookupField (unsetNestedValue d p) f = lookupField d f :=
  lookupField_unsetNestedKeys_ne (splitPath p) d f h

theorem lookupField_setStep_ne (acc : Doc) (kv : String × JValue) (f : String)
    (h : pathHead kv.1 ≠ f) :
    lookupField (setStep acc kv) f = lookupField acc f :=
  lookupField_setNestedValue_ne acc kv.1 kv.2 f h

theorem lookupField_unsetStep_ne (acc : Doc) (kv : String × JValue) (f : String)
    (h : pathHead kv.1 ≠ f) :
    lookupField (unsetStep acc kv) f = lookupField acc f :=
  lookupField_unsetNestedValue_ne acc kv.1 f h

theorem lookupField_incStep_ne (acc : Doc) (kv : String × JValue) (f : String)
    (h : pathHead kv.1 ≠ f) :
    lookupField (incStep acc kv) f = lookupField acc f := by
  unfold incStep
  split
  · exact lookupField_setNestedValue_ne acc kv.1 _ f h
  · rfl

theorem lookupField_pushStep_ne (acc : Doc) (kv : String × JValue) (f : String)
    (h : pathHead kv.1 ≠ f) :
    lookupField (pushStep acc kv) f = lookupField acc f := by
  unfold pushStep
  split
  · exact lookupField_setNestedValue_ne acc kv.1 _ f h
  · exact lookupField_setNestedValue_ne acc kv.1 _ f h

theorem lookupField_pullStep_ne (acc : Doc) (kv : String × JValue) (f : String)
    (h : pathHead kv.1 ≠ f) :
    lookupField (pullStep acc kv) f = lookupField acc f := by
  unfold pullStep
  split
  · exact lookupField_setNestedValue_ne acc kv.1 _ f h
  · rfl

theorem lookupField_addToSetStep_ne (acc : Doc) (kv : String × JValue) (f : String)
    (h : pathHead kv.1 ≠ f) :
    lookupField (addToSetStep acc kv) f = lookupField acc f := by
  unfold addToSetStep
  split
  · split
    · rfl
    · exact lookupField_setNestedValue_ne acc kv.1 _ f h
  · exact lookupField_setNestedValue_ne acc kv.1 _ f h

theorem lookupField_applyStage_ne (u : Doc) (opName : String)
    (step : Doc → String × JValue → Doc) (d0 : Doc) (f : String)
    (hnt : opTouches u opName f = false)
    (hstep : ∀ acc kv, pathHead kv.1 ≠ f → lookupField (step acc kv) f = lookupField acc f) :
    lookupField (applyStage u opName step d0) f = lookupField d0 f := by
  unfold applyStage
  unfold opTouches at hnt
  cases hv : lookupField u opName with
  | none => rfl
  | some v =>
    rw [hv] at hnt
    by_cases htr : truthy v
    · simp only [htr, if_true]
      apply lookupField_foldl_preserve
      intro acc kv hmem
      apply hstep
      simp only [htr, Bool.true_and, List.any_eq_false] at hnt
      have := hnt kv hmem
      simpa using this
    · simp [htr]

theorem lookupField_applyUpdate_of_not_touched (d u : Doc) (f : String)
    (h : touchesTopField u f = false) :
    lookupField (applyUpdate d u) f = lookupField d f := by
  unfold touchesTopField at h
  by_cases hop : isUpdateOperators u
  · rw [if_pos hop] at h
    simp only [Bool.or_eq_false_iff] at h
    obtain ⟨⟨⟨⟨⟨hset, hunset⟩, hinc⟩, hpush⟩, hpull⟩, hadd⟩ := h
    unfold applyUpdate
    rw [hop]
    simp only [Bool.not_true, Bool.false_eq_true, if_false]
    rw [lookupField_applyStage_ne u "$addToSet" addToSetStep _ f hadd
        (fun acc kv hkv => lookupField_addToSetStep_ne acc kv f hkv),
      lookupField_applyStage_ne u "$pull" pullStep _ f hpull
        (fun acc kv hkv => lookupField_pullStep_ne acc kv f hkv),
      lookupField_applyStage_ne u "$push" pushStep _ f hpush
        (fun acc kv hkv => lookupField_pushStep_ne acc kv f hkv),
      lookupField_applyStage_ne u "$inc" incStep _ f hinc
        (fun acc kv hkv => lookupField_incStep_ne acc kv f hkv),
      lookupField_applyStage_ne u "$unset" unsetStep _ f hunset
        (fun acc kv hkv => lookupField_unsetStep_ne acc kv f hkv),
      lookupField_applyStage_ne u "$set" setStep _ f hset
        (fun acc kv hkv => lookupField_setStep_ne acc kv f hkv)]
  · rw [if_neg hop] at h
    unfold applyUpdate
    rw [Bool.eq_false_iff.mpr hop]
    simp only [Bool.not_false, if_true]
    unfold mergeFields
    apply lookupField_foldl_preserve
    intro acc kv hmem
    apply lookupField_setField_ne
    rw [List.any_eq_false] at h
    have := h kv hmem
    simpa using this

end DDB

namespace DDB

/-- Claim C2, counterexample: the public update grammar can change the
identifier.  With a cached document whose `_id` is `"a"`, the
direct-merge update `{ _id: "b" }` passes `validateUpdate`, and `updateOne`
stores (under the old cache key `"a"`) a document whose `_id` is now
`"b"` — the identifier is not immutable through the public grammar. -/
theorem updateOne_can_change_id_counterexample :
    validateUpdate [("_id", JValue.str "b")] = .ok ()
    ∧ (updateOne (fun _ _ _ => false)
          [(some (.str "a"), [("_id", .str "a"), ("_messageId", .str "m1")])]
          [] [("_id", JValue.str "b")]).map
        (fun r => r.2.1.map (fun kv => (kv.1, lookupField kv.2 "_id")))
      = .ok [(some (JValue.str "a"), some (JValue.str "b"))] :=
  ⟨rfl, rfl⟩

/-- Claim C2, amended: an update specification that does not mention the
identifier or the store-managed attributes — no direct key and no operator
operand path starting at `_id`, `_messageId` or `_timestamp` — leaves all
three unchanged in the document `applyUpdate` produces (the exact document
`updateOne`/`updateMany` serialize, dispatch and store); specifications
that do mention them change them (see the counterexample). -/
theorem update_preserves_unmentioned_store_fields (d u : Doc)
    (hid : touchesTopField u "_id" = false)
    (hmsg : touchesTopField u "_messageId" = false)
    (hts : touchesTopField u "_timestamp" = false) :
    lookupField (applyUpdate d u) "_id" = lookupField d "_id"
    ∧ lookupField (applyUpdate d u) "_messageId" = lookupField d "_messageId"
    ∧ lookupField (applyUpdate d u) "_timestamp" = lookupField d "_timestamp" :=
  ⟨lookupField_applyUpdate_of_not_touched d u _ hid,
   lookupField_applyUpdate_of_not_touched d u _ hmsg,
   lookupField_applyUpdate_of_not_touched d u _ hts⟩

/-- Witness for the amended claim C2 at a concrete input: a `$set` on an
ordinary field preserves the identifier. -/
theorem update_preserves_unmentioned_store_fields_witness :
    touchesTopField [("$set", JValue.obj [("name", JValue.str "y")])] "_id" = false
    ∧ lookupField
        (applyUpdate
          [("_id", .str "a"), ("_messageId", .str "m1"), ("_timestamp", .str "t1"),
            ("name", .str "x")]
          [("$set", JValue.obj [("name", JValue.str "y")])])
        "_id" = some (JValue.str "a") := by
  refine ⟨rfl, ?_⟩
  have h := (update_preserves_unmentioned_store_fields
    [("_id", .str "a"), ("_messageId", .str "m1"), ("_timestamp", .str "t1"),
      ("name", .str "x")]
    [("$set", JValue.obj [("name", JValue.str "y")])] rfl rfl rfl).1
  rw [h]
  rfl

theorem lookupField_filter_dollar (u : Doc) (k : String)
    (hk : startsWithDollar k = true) :
    lookupField (u.filter (fun kv => startsWithDollar kv.1)) k = lookupField u k := by
  induction u with
  | nil => rfl
  | cons kv rest ih =>
    obtain ⟨k0, v0⟩ := kv
    by_cases h0 : k0 = k
    · subst h0
      simp [List.filter_cons, hk, lookupField]
    · by_cases hd : startsWithDollar k0
      · simp [List.filter_cons, hd, lookupField, h0, ih]
      · simp [List.filter_cons, hd, lookupField, h0, ih]

theorem isUpdateOperators_filter_dollar (u : Doc) :
    isUpdateOperators (u.filter (fun kv => startsWithDollar kv.1)) = isUpdateOperators u := by
  unfold isUpdateOperators
  induction u with
  | nil => rfl
  | cons kv rest ih =>
    by_cases hd : startsWithDollar kv.1
    · simp [List.filter_cons, hd, List.any_cons]
    · simp [List.filter_cons, hd, List.any_cons, ih]

/-- Claim C3, counterexample: an update whose top-level keys mix the
operator key `$inc` with the plain key `b` is accepted by `validateUpdate`
without any error, while `isUpdateOperators` classifies it as
operator-style. -/
theorem mixed_update_not_rejected_counterexample :
    validateUpdate [("$inc", JValue.obj [("a", JValue.num 1)]), ("b", JValue.num 2)] = .ok ()
    ∧ isUpdateOperators [("$inc", JValue.obj [("a", JValue.num 1)]), ("b", JValue.num 2)] = true :=
  ⟨rfl, rfl⟩

/-- Claim C3, amended: a mixed specification raises no validation error;
any specification with at least one `$`-prefixed top-level key is treated
as operator-style, and both `validateUpdate` and `applyUpdate` behave
exactly as on the specification with its non-operator keys removed — the
non-operator keys are silently ignored, not interpreted. -/
theorem mixed_update_interpreted_as_operator_style (d u : Doc)
    (hop : isUpdateOperators u = true) :
    validateUpdate u = validateUpdate (u.filter (fun kv => startsWithDollar kv.1))
    ∧ applyUpdate d u = applyUpdate d (u.filter (fun kv => startsWithDollar kv.1)) := by
  have hfop : isUpdateOperators (u.filter (fun kv => startsWithDollar kv.1)) = true := by
    rw [isUpdateOperators_filter_dollar]
    exact hop
  have hstage : ∀ (opName : String) (step : Doc → String × JValue → Doc) (d0 : Doc),
      startsWithDollar opName = true →
      applyStage (u.filter (fun kv => startsWithDollar kv.1)) opName step d0
        = applyStage u opName step d0 := by
    intro opName step d0 hd
    unfold applyStage
    rw [lookupField_filter_dollar u opName hd]
  constructor
  · unfold validateUpdate
    rw [hop, hfop]
    simp only [if_true]
    rw [lookupField_filter_dollar u "$inc" rfl, lookupField_filter_dollar u "$unset" rfl]
  · unfold applyUpdate
    rw [hop, hfop]
    simp only [Bool.not_true, Bool.false_eq_true, if_false]
    rw [hstage "$addToSet" addToSetStep _ rfl, hstage "$pull" pullStep _ rfl,
      hstage "$push" pushStep _ rfl, hstage "$inc" incStep _ rfl,
      hstage "$unset" unsetStep _ rfl, hstage "$set" setStep _ rfl]

/-- Witness for the amended claim C3 at a concrete input: the mixed
specification increments `a` and silently ignores the plain key `b`. -/
theorem mixed_update_interpreted_as_operator_style_witness :
    isUpdateOperators [("$inc", JValue.obj [("a", JValue.num 1)]), ("plain", JValue.num 9)] = true
    ∧ applyUpdate [("a", JValue.num 1)]
        [("$inc", JValue.obj [("a", JValue.num 1)]), ("plain", JValue.num 9)]
      = applyUpdate [("a", JValue.num 1)]
        ([("$inc", JValue.obj [("a", JValue.num 1)]), ("plain", JValue.num 9)].filter
          (fun kv => startsWithDollar kv.1))
    ∧ applyUpdate [("a", JValue.num 1)]
        [("$inc", JValue.obj [("a", JValue.num 1)]), ("plain", JValue.num 9)]
      = [("a", JValue.num 2)] :=
  ⟨rfl,
   (mixed_update_interpreted_as_operator_style [("a", JValue.num 1)]
     [("$inc", JValue.obj [("a", JValue.num 1)]), ("plain", JValue.num 9)] rfl).2,
   rfl⟩

end DDB

namespace DDB

theorem getNestedValue_setNestedValue_self (d : Doc) (p : String) (v : JValue) :
    getNestedValue (.obj (setNestedValue d p v)) p = some v :=
  getNestedKeys_setNestedKeys (splitPath p) d v (splitPath_ne_nil p)

theorem setNestedValue_setNestedValue (d : Doc) (p : String) (x y : JValue) :
    setNestedValue (setNestedValue d p x) p y = setNestedValue d p y :=
  setNestedKeys_setNestedKeys (splitPath p) d x y

theorem setNestedValue_of_getNestedValue (d : Doc) (p : String) (w : JValue)
    (h : getNestedValue (.obj d) p = some w) :
    setNestedValue d p w = d :=
  setNestedKeys_of_getNestedKeys (splitPath p) d w h

theorem applyUpdate_single_inc (d : Doc) (f : String) (n : Int) :
    applyUpdate d [("$inc", JValue.obj [(f, JValue.num n)])] = incStep d (f, JValue.num n) := by
  simp [applyUpdate, isUpdateOperators, startsWithDollar, applyStage, lookupField, truthy,
    jsEntries]

theorem jsOrZero_num (m : Int) : jsOrZero (some (JValue.num m)) = JValue.num m := by
  by_cases hm : m = 0
  · subst hm
    simp [jsOrZero, truthy]
  · simp [jsOrZero, truthy, hm]

/-- Claim C4, counterexample: `$inc` on a field holding the non-numeric
falsy value `false` does not skip — the `|| 0` coercion turns `false` into
0 and the field is overwritten with the increment. -/
theorem inc_on_falsy_overwrites_counterexample :
    getNestedValue (.obj [("f", JValue.bool false)]) "f" = some (JValue.bool false)
    ∧ applyUpdate [("f", JValue.bool false)] [("$inc", JValue.obj [("f", JValue.num 5)])]
      = [("f", JValue.num 5)] :=
  ⟨rfl, rfl⟩

/-- Claim C4, amended: applying `{ $inc: { f: n } }` yields `n` at an
absent `f`, the old value plus `n` at a numeric `f`, leaves the document
unchanged only when the existing value is non-numeric and truthy, and
overwrites a non-numeric falsy existing value (`false`, `null`, the empty
string) with `n` — the `|| 0` coercion treats falsy values as zero. -/
theorem inc_behaviour (d : Doc) (f : String) (n : Int) :
    (getNestedValue (.obj d) f = none →
      getNestedValue (.obj (applyUpdate d [("$inc", JValue.obj [(f, JValue.num n)])])) f
        = some (JValue.num n))
    ∧ (∀ m : Int, getNestedValue (.obj d) f = some (JValue.num m) →
      getNestedValue (.obj (applyUpdate d [("$inc", JValue.obj [(f, JValue.num n)])])) f
        = some (JValue.num (m + n)))
    ∧ (∀ v : JValue, getNestedValue (.obj d) f = some v → truthy v = true →
      (∀ m : Int, v ≠ JValue.num m) →
      applyUpdate d [("$inc", JValue.obj [(f, JValue.num n)])] = d)
    ∧ (∀ v : JValue, getNestedValue (.obj d) f = some v → truthy v = false →
      (∀ m : Int, v ≠ JValue.num m) →
      getNestedValue (.obj (applyUpdate d [("$inc", JValue.obj [(f, JValue.num n)])])) f
        = some (JValue.num n)) := by
  refine ⟨?_, ?_, ?_, ?_⟩
  · intro h
    rw [applyUpdate_single_inc]
    simp only [incStep, h, jsOrZero]
    rw [getNestedValue_setNestedValue_self]
    norm_num
  · intro m h
    rw [applyUpdate_single_inc]
    simp only [incStep, h, jsOrZero_num]
    rw [getNestedValue_setNestedValue_self]
  · intro v h htr hnum
    rw [applyUpdate_single_inc]
    simp only [incStep, h, jsOrZero, htr, if_true]
    cases v with
    | num m => exact absurd rfl (hnum m)
    | null => simp [truthy] at htr
    | bool b => rfl
    | str s => rfl
    | arr xs => rfl
    | obj fs => rfl
  · intro v h htr hnum
    rw [applyUpdate_single_inc]
    simp only [incStep, h, jsOrZero, htr, Bool.false_eq_true, if_false]
    rw [getNestedValue_setNestedValue_self]
    norm_num

/-- Witness for the amended claim C4 at a concrete input: incrementing an
existing numeric field adds. -/
theorem inc_behaviour_witness :
    getNestedValue (.obj [("count", JValue.num 3)]) "count" = some (JValue.num 3)
    ∧ getNestedValue (.obj (applyUpdate [("count", JValue.num 3)]
        [("$inc", JValue.obj [("count", JValue.num 4)])])) "count" = some (JValue.num 7) := by
  refine ⟨rfl, ?_⟩
  have h := (inc_behaviour [("count", JValue.num 3)] "count" 4).2.1 3 rfl
  simpa using h

end DDB

namespace DDB

theorem deepEqual_self_of_isScalar (v : JValue) (h : isScalar v = true) :
    deepEqual v v = true := by
  cases v with
  | null => rfl
  | bool b => simp [deepEqual]
  | num n => simp [deepEqual]
  | str s => simp [deepEqual]
  | arr xs => simp [isScalar] at h
  | obj fs => simp [isScalar] at h

theorem applyUpdate_single_push (d : Doc) (f : String) (v : JValue) :
    applyUpdate d [("$push", JValue.obj [(f, v)])] = pushStep d (f, v) := by
  simp [applyUpdate, isUpdateOperators, startsWithDollar, applyStage, lookupField, truthy,
    jsEntries]

theorem applyUpdate_single_pull (d : Doc) (f : String) (v : JValue) :
    applyUpdate d [("$pull", JValue.obj [(f, v)])] = pullStep d (f, v) := by
  simp [applyUpdate, isUpdateOperators, startsWithDollar, applyStage, lookupField, truthy,
    jsEntries]

/-- Claim C5, counterexample: on a document whose array already contains
the value, `$push` then `$pull` of that value does not restore the
original array — `$pull` removes every deep-equal element, including the
pre-existing one, leaving the array empty. -/
theorem push_pull_roundtrip_counterexample :
    applyUpdate (applyUpdate [("f", JValue.arr [JValue.num 1])]
        [("$push", JValue.obj [("f", JValue.num 1)])])
      [("$pull", JValue.obj [("f", JValue.num 1)])]
      = [("f", JValue.arr [])]
    ∧ [("f", JValue.arr ([] : List JValue))] ≠ [("f", JValue.arr [JValue.num 1])] := by
  refine ⟨rfl, ?_⟩
  simp

/-- Claim C5, amended: for a document whose field `f` holds an array `a`
with no element deep-equal to the scalar value `v`, applying
`{ $push: { f: v } }` and then `{ $pull: { f: v } }` through `applyUpdate`
restores the original document exactly; when `a` already contains an
element deep-equal to `v`, `$pull` also removes it (see counterexample). -/
theorem push_pull_roundtrip_amended (d : Doc) (f : String) (a : List JValue) (v : JValue)
    (hget : getNestedValue (.obj d) f = some (JValue.arr a))
    (hv : isScalar v = true)
    (hnotin : a.all (fun x => !deepEqual x v) = true) :
    applyUpdate (applyUpdate d [("$push", JValue.obj [(f, v)])])
      [("$pull", JValue.obj [(f, v)])] = d := by
  rw [applyUpdate_single_push, applyUpdate_single_pull]
  simp only [pushStep, hget]
  simp only [pullStep, getNestedValue_setNestedValue_self]
  have hfilter : (a ++ [v]).filter (fun item => !deepEqual item v) = a := by
    rw [List.filter_append]
    have h1 : a.filter (fun item => !deepEqual item v) = a := by
      rw [List.filter_eq_self]
      intro x hx
      rw [List.all_eq_true] at hnotin
      exact hnotin x hx
    have h2 : [v].filter (fun item => !deepEqual item v) = [] := by
      simp [List.filter, deepEqual_self_of_isScalar v hv]
    rw [h1, h2, List.append_nil]
  rw [hfilter, setNestedValue_setNestedValue, setNestedValue_of_getNestedValue d f _ hget]

/-- Witness for the amended claim C5 at a concrete input: pushing then
pulling a tag absent from the array restores the document. -/
theorem push_pull_roundtrip_amended_witness :
    getNestedValue (.obj [("tags", JValue.arr [JValue.str "a"])]) "tags"
      = some (JValue.arr [JValue.str "a"])
    ∧ applyUpdate (applyUpdate [("tags", JValue.arr [JValue.str "a"])]
        [("$push", JValue.obj [("tags", JValue.str "b")])])
      [("$pull", JValue.obj [("tags", JValue.str "b")])]
      = [("tags", JValue.arr [JValue.str "a"])] :=
  ⟨rfl,
   push_pull_roundtrip_amended [("tags", JValue.arr [JValue.str "a"])] "tags"
     [JValue.str "a"] (JValue.str "b") rfl rfl rfl⟩

end DDB

namespace DDB

theorem updateMany_foldl_spec (update : Doc) (l : List Doc) (n : Nat) (st : CacheState)
    (es : List EditCall) :
    ((l.foldl (updateManyStep update) (n, st, es)).1
        = n + (l.filter (fitsDoc update)).length)
    ∧ ((l.foldl (updateManyStep update) (n, st, es)).2.2
        = es ++ (l.filter (fitsDoc update)).map
            (fun doc => (lookupField doc "_messageId", stringify (.obj (applyUpdate doc update))))) := by
  induction l generalizing n st es with
  | nil => simp
  | cons doc rest ih =>
    by_cases h : fitsDoc update doc
    · have hle : ¬ 2000 < (stringify (.obj (applyUpdate doc update))).length := by
        unfold fitsDoc at h
        simp at h
        omega
      have hstep : updateManyStep update (n, st, es) doc
          = (n + 1, cacheSet st (lookupField doc "_id") (applyUpdate doc update),
             es ++ [(lookupField doc "_messageId", stringify (.obj (applyUpdate doc update)))]) := by
        simp only [updateManyStep]
        rw [if_neg hle]
      rw [List.foldl_cons, hstep]
      obtain ⟨ih1, ih2⟩ := ih (n + 1)
        (cacheSet st (lookupField doc "_id") (applyUpdate doc update))
        (es ++ [(lookupField doc "_messageId", stringify (.obj (applyUpdate doc update)))])
      constructor
      · rw [ih1]
        simp only [List.filter_cons, h, if_true, List.length_cons]
        omega
      · rw [ih2]
        simp only [List.filter_cons, h, if_true, List.map_cons, List.append_assoc,
          List.singleton_append]
    · have hgt : 2000 < (stringify (.obj (applyUpdate doc update))).length := by
        unfold fitsDoc at h
        simp at h
        omega
      have hstep : updateManyStep update (n, st, es) doc = (n, st, es) := by
        simp only [updateManyStep]
        rw [if_pos hgt]
      rw [List.foldl_cons, hstep]
      obtain ⟨ih1, ih2⟩ := ih n st es
      refine ⟨?_, ?_⟩
      · rw [ih1]
        simp [List.filter_cons, h]
      · rw [ih2]
        simp [List.filter_cons, h]

/-- Claim C6: `updateMany` never raises for an oversized updated document —
it reports every match in `matchedCount`, counts in `modifiedCount` exactly
the matched documents whose updated serialization fits the 2000-character
ceiling, and dispatches edits exactly for those (skipped documents are not
edited, the rest are still processed); `updateOne`, by contrast, raises the
`ValidationError` "Updated document too large." whenever the one matched
document's updated serialization exceeds the ceiling. -/
theorem updateMany_skips_oversized_updateOne_raises (rt : RegexTest) (state : CacheState)
    (filter update : Doc) (hval : validateUpdate update = .ok ()) :
    (updateMany rt state filter update).map
        (fun r => (r.1.matchedCount, r.1.modifiedCount, r.2.2))
      = .ok (((cacheDocs state).filter (fun doc => matchesFilter rt doc filter)).length,
          (((cacheDocs state).filter (fun doc => matchesFilter rt doc filter)).filter
            (fitsDoc update)).length,
          (((cacheDocs state).filter (fun doc => matchesFilter rt doc filter)).filter
            (fitsDoc update)).map
            (fun doc => (lookupField doc "_messageId", stringify (.obj (applyUpdate doc update)))))
    ∧ (∀ document, findOne rt state filter = some document →
        fitsDoc update document = false →
        updateOne rt state filter update = .error (.validation "Updated document too large.")) := by
  constructor
  · unfold updateMany
    rw [hval]
    obtain ⟨h1, h2⟩ := updateMany_foldl_spec update
      ((cacheDocs state).filter (fun doc => matchesFilter rt doc filter)) 0 state []
    simp only [Except.map, h1, h2, Nat.zero_add, List.nil_append]
  · intro document hfind hbig
    have hgt : 2000 < (stringify (.obj (applyUpdate document update))).length := by
      unfold fitsDoc at hbig
      simp at hbig
      omega
    simp [updateOne, hval, hfind, hgt]

/-- Witness for claim C6 at a concrete input (one small matching document,
a small `$set`): the batch variant acknowledges with the counts the theorem
computes. -/
theorem updateMany_skips_oversized_witness :
    validateUpdate [("$set", JValue.obj [("a", JValue.num 2)])] = .ok ()
    ∧ (updateMany (fun _ _ _ => false)
          [(some (JValue.str "1"), [("_id", JValue.str "1"), ("a", JValue.num 1)])]
          [] [("$set", JValue.obj [("a", JValue.num 2)])]).map
        (fun r => (r.1.matchedCount, r.1.modifiedCount, r.2.2))
      = .ok ((((cacheDocs [(some (JValue.str "1"),
            [("_id", JValue.str "1"), ("a", JValue.num 1)])]).filter
            (fun doc => matchesFilter (fun _ _ _ => false) doc [])).length),
          (((cacheDocs [(some (JValue.str "1"),
            [("_id", JValue.str "1"), ("a", JValue.num 1)])]).filter
            (fun doc => matchesFilter (fun _ _ _ => false) doc [])).filter
            (fitsDoc [("$set", JValue.obj [("a", JValue.num 2)])])).length,
          (((cacheDocs [(some (JValue.str "1"),
            [("_id", JValue.str "1"), ("a", JValue.num 1)])]).filter
            (fun doc => matchesFilter (fun _ _ _ => false) doc [])).filter
            (fitsDoc [("$set", JValue.obj [("a", JValue.num 2)])])).map
            (fun doc => (lookupField doc "_messageId",
              stringify (.obj (applyUpdate doc [("$set", JValue.obj [("a", JValue.num 2)])]))))) :=
  ⟨rfl,
   (updateMany_skips_oversized_updateOne_raises (fun _ _ _ => false)
     [(some (JValue.str "1"), [("_id", JValue.str "1"), ("a", JValue.num 1)])]
     [] [("$set", JValue.obj [("a", JValue.num 2)])] rfl).1⟩

/-- Claim C7: for every cached document set, filter and query options, the
`total` a find reports equals the number of documents matching the filter
before pagination and projection — sorting permutes but never changes the
count, and `total` is read off before `applyPagination` and
`applyProjection` run (the stage order is the body of `find`). -/
theorem find_total_is_prefilter_count (rt : RegexTest) (docs : List Doc) (filter : Doc)
    (options : QueryOptionsM) :
    (find rt docs filter options).total
      = (docs.filter (fun doc => matchesFilter rt doc filter)).length := by
  unfold find
  cases hs : options.sort with
  | none => rfl
  | some s => simp [sortDocuments_length]

end DDB

namespace DDB

theorem matchesFilter_nil (rt : RegexTest) (document : Doc) :
    matchesFilter rt document [] = true := by
  rw [matchesFilter.eq_def]

theorem matchesFilter_cons (rt : RegexTest) (document : Doc) (key : String)
    (value : JValue) (rest : List (String × JValue)) :
    matchesFilter rt document ((key, value) :: rest)
      = ((if key == "$and" then
            match value with
            | JValue.arr subs => matchesAllFilters rt document subs
            | _ => false
          else if key == "$or" then
            match value with
            | JValue.arr subs => matchesAnyFilter rt document subs
            | _ => false
          else if key == "$not" then !matchesFilterValue rt document value
          else evaluateFieldFilter rt document key value)
         && matchesFilter rt document rest) := by
  rw [matchesFilter.eq_def]

theorem evaluateFieldFilter_obj (rt : RegexTest) (document : Doc) (key : String)
    (fs : List (String × JValue)) :
    evaluateFieldFilter rt document key (JValue.obj fs)
      = evaluateOperators rt fs (getNestedValue (.obj document) key) fs := by
  rw [evaluateFieldFilter.eq_def]

theorem evaluateFieldFilter_nonobj (rt : RegexTest) (document : Doc) (key : String)
    (fv : JValue) (h : isObjValue fv = false) :
    evaluateFieldFilter rt document key fv
      = compareValuesU (getNestedValue (.obj document) key) fv := by
  cases fv with
  | obj fs => simp [isObjValue] at h
  | null => rw [evaluateFieldFilter.eq_def]
  | bool b => rw [evaluateFieldFilter.eq_def]
  | num n => rw [evaluateFieldFilter.eq_def]
  | str s => rw [evaluateFieldFilter.eq_def]
  | arr xs => rw [evaluateFieldFilter.eq_def]

theorem evaluateOperators_nil (rt : RegexTest) (allOps : List (String × JValue))
    (docValue : Option JValue) :
    evaluateOperators rt allOps docValue [] = true := by
  rw [evaluateOperators.eq_def]

theorem evaluateOperators_cons (rt : RegexTest) (allOps : List (String × JValue))
    (docValue : Option JValue) (op : String) (ov : JValue)
    (rest : List (String × JValue)) :
    evaluateOperators rt allOps docValue ((op, ov) :: rest)
      = (evalOperator rt allOps docValue op ov && evaluateOperators rt allOps docValue rest) := by
  rw [evaluateOperators.eq_def]

theorem evalOperator_not (rt : RegexTest) (allOps : List (String × JValue))
    (docValue : Option JValue) (ov : JValue) :
    evalOperator rt allOps docValue "$not" ov
      = !(match ov with
          | JValue.obj fs =>
            matchesFilter rt
              (match docValue with
               | some dv => [("docValue", dv)]
               | none => [])
              fs
          | _ => true) := by
  rw [evalOperator.eq_def]
  rw [if_pos (by decide)]

theorem startsWithDollar_pathHead (s : String) (h : startsWithDollar s = true) :
    startsWithDollar (pathHead s) = true := by
  unfold startsWithDollar at h
  unfold pathHead splitPath
  cases hd : s.data with
  | nil =>
    rw [hd] at h
    simp at h
  | cons c cs =>
    rw [hd] at h
    have hc : c = '$' := by simpa using h
    subst hc
    simp only [splitPathChars]
    rw [if_neg (by decide)]
    cases hrest : splitPathChars cs with
    | nil => simp [startsWithDollar]
    | cons seg segs => simp [startsWithDollar]

theorem docValue_beq_eq_false (t : String) (h : startsWithDollar t = true) :
    ("docValue" == t) = false := by
  by_cases he : "docValue" = t
  · rw [← he] at h
    exact absurd h (by decide)
  · exact beq_eq_false_iff_ne.mpr he

theorem getNestedValue_dollar_key_wrapper (w : Option JValue) (key : String)
    (h : startsWithDollar key = true) :
    getNestedValue
      (.obj (match w with
        | some dv => [("docValue", dv)]
        | none => []))
      key = none := by
  have hhead := startsWithDollar_pathHead key h
  obtain ⟨k1, krest, hsplit⟩ := List.exists_cons_of_ne_nil (splitPath_ne_nil key)
  have hk1 : startsWithDollar k1 = true := by
    rw [pathHead, hsplit] at hhead
    simpa using hhead
  have hlk : getNestedStep
      (some (JValue.obj (match w with
        | some dv => [("docValue", dv)]
        | none => []))) k1 = none := by
    cases w with
    | none => simp [getNestedStep, truthy, jsIndex, lookupField]
    | some dv =>
      simp [getNestedStep, truthy, jsIndex, lookupField, docValue_beq_eq_false k1 hk1]
  unfold getNestedValue
  rw [hsplit]
  simp only [getNestedKeys]
  rw [hlk, getNestedKeys_none]

/-- Claim C9: a field-level filter `{ f: { $not: op } }`, where `op` is a
non-empty object of `$`-prefixed non-logical operator keys with non-object
operands (for example `{ $lt: n }`), matches every document under
`matchesFilter`, independent of the value resolved at `f`: the field-level
`$not` branch wraps the resolved value under the literal key `"docValue"`
and evaluates `op` as a filter over that wrapper, where every `$`-prefixed
field lookup is `undefined` and every literal comparison against
`undefined` is false — so the inner match is always false and its negation
always true. -/
theorem field_level_not_always_matches (rt : RegexTest) (d : Doc) (f : String)
    (ops : List (String × JValue))
    (hf1 : f ≠ "$and") (hf2 : f ≠ "$or") (hf3 : f ≠ "$not")
    (hne : ops ≠ [])
    (hops : ops.all (fun kv => startsWithDollar kv.1
        && !(kv.1 == "$and" || kv.1 == "$or" || kv.1 == "$not")
        && !isObjValue kv.2) = true) :
    matchesFilter rt d [(f, JValue.obj [("$not", JValue.obj ops)])] = true := by
  obtain ⟨kv0, rest, hcons⟩ := List.exists_cons_of_ne_nil hne
  subst hcons
  simp only [List.all_cons, Bool.and_eq_true] at hops
  obtain ⟨⟨⟨hd1, hd2⟩, hd3⟩, _⟩ := hops
  simp only [Bool.not_eq_true', Bool.or_eq_false_iff] at hd2
  obtain ⟨⟨hand, hor⟩, hnot⟩ := hd2
  simp only [Bool.not_eq_true'] at hd3
  obtain ⟨k0, v0⟩ := kv0
  simp only at hd1 hand hor hnot hd3
  have hinner : matchesFilter rt
      (match getNestedValue (.obj d) f with
        | some dv => [("docValue", dv)]
        | none => []) ((k0, v0) :: rest) = false := by
    rw [matchesFilter_cons, hand, hor, hnot]
    simp only [Bool.false_eq_true, if_false]
    rw [evaluateFieldFilter_nonobj rt _ k0 v0 hd3,
      getNestedValue_dollar_key_wrapper _ k0 hd1]
    rfl
  rw [matchesFilter_cons,
    beq_eq_false_iff_ne.mpr hf1, beq_eq_false_iff_ne.mpr hf2, beq_eq_false_iff_ne.mpr hf3]
  simp only [Bool.false_eq_true, if_false]
  rw [evaluateFieldFilter_obj, evaluateOperators_cons, evalOperator_not]
  have hmv : (match JValue.obj ((k0, v0) :: rest) with
      | JValue.obj fs =>
        matchesFilter rt
          (match getNestedValue (.obj d) f with
           | some dv => [("docValue", dv)]
           | none => [])
          fs
      | _ => true)
      = matchesFilter rt
          (match getNestedValue (.obj d) f with
           | some dv => [("docValue", dv)]
           | none => [])
          ((k0, v0) :: rest) := rfl
  rw [hmv, hinner, matchesFilter_nil, evaluateOperators_nil]
  rfl

/-- Witness for claim C9 at a concrete input: the document has `age` 3,
which satisfies `$lt 5`, so a working negation would reject it — yet
`{ age: { $not: { $lt: 5 } } }` matches, exactly like the un-negated
filter does. -/
theorem field_level_not_always_matches_witness :
    matchesFilter (fun _ _ _ => false) [("age", JValue.num 3)]
      [("age", JValue.obj [("$not", JValue.obj [("$lt", JValue.num 5)])])] = true
    ∧ matchesFilter (fun _ _ _ => false) [("age", JValue.num 3)]
      [("age", JValue.obj [("$lt", JValue.num 5)])] = true :=
  ⟨field_level_not_always_matches (fun _ _ _ => false) [("age", JValue.num 3)] "age"
    [("$lt", JValue.num 5)] (by decide) (by decide) (by decide) (by simp) (by decide),
   by decide⟩

end DDB

namespace DDB

/-- Claim C10: when the filter matches no cached document, `updateOne`
(with a specification `validateUpdate` accepts — the validation runs before
the match lookup) returns `acknowledged` with zero matched and modified
counts and `deleteOne` returns `acknowledged` with a zero deleted count,
both leaving the cache exactly as it was and dispatching no transport edit
or delete. -/
theorem no_match_updateOne_deleteOne_noop (rt : RegexTest) (state : CacheState)
    (filter update : Doc)
    (hval : validateUpdate update = .ok ())
    (hmatch : (cacheDocs state).all (fun doc => !matchesFilter rt doc filter) = true) :
    updateOne rt state filter update = .ok (⟨true, 0, 0⟩, state, [])
    ∧ deleteOne rt state filter = .ok (⟨true, 0⟩, state, []) := by
  have hfilter : (cacheDocs state).filter (fun doc => matchesFilter rt doc filter) = [] := by
    rw [List.filter_eq_nil_iff]
    intro a ha
    simp only [List.all_eq_true] at hmatch
    simpa using hmatch a ha
  have hfind : findOne rt state filter = none := by
    simp [findOne, find, hfilter, applyPagination]
  constructor
  · simp [updateOne, hval, hfind]
  · simp [deleteOne, hfind]

/-- Witness for claim C10 at a concrete input: a one-document cache whose
document fails the filter. -/
theorem no_match_updateOne_deleteOne_noop_witness :
    validateUpdate [("b", JValue.num 3)] = .ok ()
    ∧ updateOne (fun _ _ _ => false)
        [(some (JValue.str "1"), [("_id", JValue.str "1"), ("a", JValue.num 1)])]
        [("a", JValue.num 2)] [("b", JValue.num 3)]
      = .ok (⟨true, 0, 0⟩,
          [(some (JValue.str "1"), [("_id", JValue.str "1"), ("a", JValue.num 1)])], [])
    ∧ deleteOne (fun _ _ _ => false)
        [(some (JValue.str "1"), [("_id", JValue.str "1"), ("a", JValue.num 1)])]
        [("a", JValue.num 2)]
      = .ok (⟨true, 0⟩,
          [(some (JValue.str "1"), [("_id", JValue.str "1"), ("a", JValue.num 1)])], []) := by
  have h := no_match_updateOne_deleteOne_noop (fun _ _ _ => false)
    [(some (JValue.str "1"), [("_id", JValue.str "1"), ("a", JValue.num 1)])]
    [("a", JValue.num 2)] [("b", JValue.num 3)] rfl (by decide)
  exact ⟨rfl, h.1, h.2⟩

/-- Claim C1 (the code contradicts it): in a store without an encryption
key, a reload that parses a transport entry holding exactly the JSON of an
Encrypted Payload — an object `EncryptionService.isEncrypted` recognises —
raises nothing and produces no document: the payload has no `_id`, so the
parse loop of `getAllDocuments` silently drops it, returning an empty
document list and cache instead of the "encrypted data found but no key
provided" error the specification (and the repository's own test suite and
README) require. -/
theorem encrypted_payload_reload_silently_skipped :
    isEncrypted (.obj [("encrypted", JValue.bool true), ("data", JValue.str "6a1f"),
      ("iv", JValue.str "00ff")]) = true
    ∧ stringify (.obj [("encrypted", JValue.bool true), ("data", JValue.str "6a1f"),
        ("iv", JValue.str "00ff")])
      = "\x7b\"encrypted\":true,\"data\":\"6a1f\",\"iv\":\"00ff\"\x7d"
    ∧ reloadDocuments
        (fun s => if s = "\x7b\"encrypted\":true,\"data\":\"6a1f\",\"iv\":\"00ff\"\x7d"
          then some (.obj [("encrypted", JValue.bool true), ("data", JValue.str "6a1f"),
            ("iv", JValue.str "00ff")])
          else none)
        [⟨"m1", "2023-01-01T00:00:00.000Z",
          "\x7b\"encrypted\":true,\"data\":\"6a1f\",\"iv\":\"00ff\"\x7d"⟩]
      = ([], []) :=
  ⟨rfl, rfl, rfl⟩

theorem hexDigitVal_nibbleChar (m : Nat) (h : m < 16) :
    hexDigitVal (nibbleChar m) = some m := by
  interval_cases m <;> decide

theorem hexDecode_hexEncode (bytes : List Nat) (h : ∀ b ∈ bytes, b < 256) :
    hexDecode (hexEncode bytes) = bytes := by
  induction bytes with
  | nil => rfl
  | cons b rest ih =>
    have hb : b < 256 := h b (List.mem_cons_self b rest)
    have hdiv : b / 16 < 16 := by omega
    have hmod : b % 16 < 16 := by omega
    have hstep : hexDecode (hexEncode (b :: rest))
        = hexDecodeChars (nibbleChar (b / 16) :: nibbleChar (b % 16)
            :: ((rest.map (fun x => [nibbleChar (x / 16), nibbleChar (x % 16)])).flatten)) := rfl
    have htail : hexDecodeChars
        ((rest.map (fun x => [nibbleChar (x / 16), nibbleChar (x % 16)])).flatten) = rest :=
      ih (fun x hx => h x (List.mem_cons_of_mem b hx))
    rw [hstep]
    rw [hexDecodeChars]
    rw [hexDigitVal_nibbleChar (b / 16) hdiv, hexDigitVal_nibbleChar (b % 16) hmod]
    simp only []
    rw [htail, Nat.div_add_mod]

/-- Claim C8: decrypting the result of `encrypt(p, k)` with the same
passphrase `k` recovers `p` exactly, for every plaintext (the empty string
included) and every fresh IV.  The external `node:crypto` collaborators are
taken at their interface contracts, each as a hypothesis at the values
used: `randomBytes` yields bytes, the AES-256-CBC cipher pair yields bytes
and inverts under the same key and IV, and UTF-8 decoding inverts
encoding.  What the theorem then establishes about encryption.ts itself:
both directions derive the same SHA-256 key from the passphrase, and the
hex wrapping of IV and ciphertext into the Encrypted Payload round-trips
losslessly. -/
theorem encrypt_decrypt_roundtrip (cp : CryptoPrimitives) (p k : String) (iv : List Nat)
    (hiv : ∀ b ∈ iv, b < 256)
    (hcipherBytes : ∀ b ∈ cp.cipherEncrypt (deriveKey cp k) iv (cp.utf8Encode p), b < 256)
    (hcipherInv : cp.cipherDecrypt (deriveKey cp k) iv
        (cp.cipherEncrypt (deriveKey cp k) iv (cp.utf8Encode p)) = cp.utf8Encode p)
    (hutf8 : cp.utf8Decode (cp.utf8Encode p) = p) :
    decrypt cp k (encrypt cp k iv p) = p := by
  unfold decrypt encrypt
  simp only []
  rw [hexDecode_hexEncode iv hiv, hexDecode_hexEncode _ hcipherBytes, hcipherInv, hutf8]

/-- Witness for claim C8 at a concrete input: the toy interface instance
satisfies every contract at `p = "ab"`, `k = "secret-key"`,
`iv = [0, 255]`, and the round trip recovers `"ab"`. -/
theorem encrypt_decrypt_roundtrip_witness :
    decrypt toyCrypto "secret-key" (encrypt toyCrypto "secret-key" [0, 255] "ab") = "ab" :=
  encrypt_decrypt_roundtrip toyCrypto "ab" "secret-key" [0, 255]
    (by decide) (by decide) rfl (by decide)

end DDB
